import Mathlib

/-!
Verification of the gRPC-Web protocol core of `grpcwebcurl`: the binary
frame codec (`pkg/protocol`), the trailer parser, and the hand-rolled
reflection-response extractors (`pkg/client`), together with the
`ParseServiceMethod` utility (`pkg/descriptor`).

Bytes are modelled as `Nat` (values < 256 in every real execution; theorems
add explicit bounds where a claim depends on them).  Byte strings are
`List Nat`.  The single-byte-length reflection walkers, which can only
index or slice out of range, return `Option` with `none` marking the Go
panic; the varint-length walkers, whose `pos += length` can also move the
cursor backwards and loop, are modelled position-faithfully with a
three-way `WalkResult` (normal return, panic, divergence).  The trailer
scanner carries `bufio.Scanner`'s 64 KiB token cap, whose error the Go
code silently swallows.
-/

namespace GrpcWebCurl

set_option maxRecDepth 40000

/-- Byte list of an ASCII string literal (Go `[]byte(s)` for ASCII `s`). -/
def strBytes (s : String) : List Nat := s.data.map Char.toNat

/-! ## Frame codec (pkg/protocol/encoder.go, decoder.go) -/

/-- A gRPC-Web frame: one tag byte (`FrameData = 0x00`, `FrameTrailer = 0x80`)
and a payload.  The tag is kept as a raw byte, as in the Go `FrameType`. -/
structure Frame where
  type : Nat
  payload : List Nat
deriving DecidableEq

/-- The four bytes written by `binary.BigEndian.PutUint32(buf, uint32(n))`:
the Go code first truncates the length with `uint32(len(payload))`, then
emits the big-endian bytes. -/
def beBytes32 (n : Nat) : List Nat :=
  let u := n % 4294967296
  [u / 16777216 % 256, u / 65536 % 256, u / 256 % 256, u % 256]

/-- `binary.BigEndian.Uint32` of four header bytes. -/
def beVal32 (b1 b2 b3 b4 : Nat) : Nat :=
  b1 * 16777216 + b2 * 65536 + b3 * 256 + b4

/-- `Encoder.EncodeFrame`: one tag byte, the 4-byte big-endian length, then
exactly the payload bytes (writes to a `bytes.Buffer` never fail, so the Go
error path is dead). -/
def EncodeFrame (type : Nat) (payload : List Nat) : List Nat :=
  type :: beBytes32 payload.length ++ payload

/-- `EncodeMessage`: encode one Data frame (`Encoder.Encode`). -/
def EncodeMessage (message : List Nat) : List Nat :=
  EncodeFrame 0 message

/-- Errors of the decoder.  `eof` is `io.EOF` (a clean end of stream read at
a frame boundary); `unexpectedEOF` is a partial 5-byte header
(`io.ErrUnexpectedEOF` from `io.ReadFull`); `sizeExceeded` is the explicit
"message size %d exceeds maximum %d" error; `payloadTruncated` is the
wrapped "failed to read frame payload" error. -/
inductive DecodeErr where
  | eof
  | unexpectedEOF
  | sizeExceeded (length max : Nat)
  | payloadTruncated
deriving DecidableEq

/-- `MaxMessageSize = 16 * 1024 * 1024`. -/
def MaxMessageSize : Nat := 16777216

/-- `Decoder.DecodeFrame` on the remaining stream: read the 5-byte header
atomically, check the declared length against the configured maximum before
touching the payload, then read exactly `length` payload bytes.  Returns the
frame and the unread remainder of the stream. -/
def DecodeFrame (maxMsgSize : Nat) (input : List Nat) : Except DecodeErr (Frame × List Nat) :=
  match input with
  | [] => .error .eof
  | t :: b1 :: b2 :: b3 :: b4 :: rest =>
    if beVal32 b1 b2 b3 b4 > maxMsgSize then
      .error (.sizeExceeded (beVal32 b1 b2 b3 b4) maxMsgSize)
    else if rest.length < beVal32 b1 b2 b3 b4 then .error .payloadTruncated
    else .ok (⟨t, rest.take (beVal32 b1 b2 b3 b4)⟩, rest.drop (beVal32 b1 b2 b3 b4))
  | _ => .error .unexpectedEOF

/-- Recursion core of `Decoder.DecodeAll`, with fuel (each decoded frame
consumes at least 5 input bytes, so `input.length + 1` fuel always
suffices).  Returns the frames decoded so far and the terminal error, if
the stream did not end cleanly at a frame boundary. -/
def decodeAllGo (maxMsgSize : Nat) : Nat → List Nat → List Frame × Option DecodeErr
  | 0, _ => ([], none)
  | fuel + 1, input =>
    match DecodeFrame maxMsgSize input with
    | .error .eof => ([], none)
    | .error e => ([], some e)
    | .ok (f, rest) =>
      let r := decodeAllGo maxMsgSize fuel rest
      (f :: r.1, r.2)

/-- `Decoder.DecodeAll`: decode frames until end of stream, returning the
frames observed so far even on a late error (`err == io.EOF` is the clean
termination case). -/
def DecodeAll (maxMsgSize : Nat) (input : List Nat) : List Frame × Option DecodeErr :=
  decodeAllGo maxMsgSize (input.length + 1) input

/-- Recursion core of `Decoder.Decode` (fuelled like `decodeAllGo`): skip
trailer frames, return the payload of the first Data frame (tag exactly
`0x00`), propagating any decode error including `io.EOF`. -/
def decodeDataGo (maxMsgSize : Nat) : Nat → List Nat → Except DecodeErr (List Nat)
  | 0, _ => .error .eof
  | fuel + 1, input =>
    match DecodeFrame maxMsgSize input with
    | .error e => .error e
    | .ok (f, rest) =>
      if f.type = 0 then .ok f.payload
      else decodeDataGo maxMsgSize fuel rest

/-- `Decoder.Decode`. -/
def Decode (maxMsgSize : Nat) (input : List Nat) : Except DecodeErr (List Nat) :=
  decodeDataGo maxMsgSize (input.length + 1) input

/-- `DecodeMessage`: decode a single message with a fresh default decoder. -/
def DecodeMessage (data : List Nat) : Except DecodeErr (List Nat) :=
  Decode MaxMessageSize data

/-! ## Trailer parsing (decoder.go parseTrailers) -/

/-- gRPC status recovered from trailers (`protocol.Status`); the code is a
Go `int`. -/
structure Status where
  code : Int
  message : List Nat
deriving DecidableEq

/-- Association-list model of a Go `map[string]string`: `mapSet` replaces an
existing binding in place or appends a new one, so lookups behave exactly
like the Go map while staying deterministic. -/
def mapSet (m : List (List Nat × List Nat)) (k v : List Nat) : List (List Nat × List Nat) :=
  match m with
  | [] => [(k, v)]
  | (k', v') :: rest => if k' = k then (k, v) :: rest else (k', v') :: mapSet rest k v

/-- Lookup in the association-list map. -/
def mapGet (m : List (List Nat × List Nat)) (k : List Nat) : Option (List Nat) :=
  match m with
  | [] => none
  | (k', v') :: rest => if k' = k then some v' else mapGet rest k

/-- Drop a single trailing carriage-return byte (`dropCR` in
`bufio.ScanLines`). -/
def stripCR (l : List Nat) : List Nat :=
  if l.getLast? = some 13 then l.dropLast else l

/-- `bufio.MaxScanTokenSize = 64 * 1024`: the scanner's default maximum
buffered token size. -/
def maxScanTokenSize : Nat := 65536

/-- Split a byte string at the first newline byte: the bytes before it and
the bytes after it, or `none` when there is no newline. -/
def splitFirstNL : List Nat → Option (List Nat × List Nat)
  | [] => none
  | b :: rest =>
    if b = 10 then some ([], rest)
    else (splitFirstNL rest).map fun p => (b :: p.1, p.2)

/-- Recursion core of the `bufio.Scanner`/`ScanLines` token stream (fuelled;
each emitted line consumes at least one byte, so `data.length + 1` fuel
suffices).  A line is emitted only when its newline appears within the
scanner's `maxScanTokenSize`-byte buffer, i.e. when the bytes before the
newline (carriage return included) number fewer than 65536; a longer line
makes `Scan` fail with `ErrTooLong`, which ends the scan and silently
drops that line and everything after it.  At end of input, a final
unterminated token is emitted under the same size cap, and empty input
emits nothing. -/
def scanLinesGo : Nat → List Nat → List (List Nat)
  | 0, _ => []
  | fuel + 1, d =>
    match splitFirstNL d with
    | some (line, rest) =>
      if line.length < maxScanTokenSize then stripCR line :: scanLinesGo fuel rest
      else []
    | none =>
      if d = [] then []
      else if d.length < maxScanTokenSize then [stripCR d]
      else []

/-- The token stream of `bufio.Scanner` with `ScanLines` over the trailer
payload, including the 64 KiB token cap (the Go `parseTrailers` never
checks `scanner.Err()`, so an over-long line silently truncates the
stream). -/
def scanLines (data : List Nat) : List (List Nat) :=
  scanLinesGo (data.length + 1) data

/-- `strings.SplitN(line, ":", 2)`: the part before the first colon and the
rest after it, or `none` when the line has no colon. -/
def splitColon : List Nat → Option (List Nat × List Nat)
  | [] => none
  | b :: rest =>
    if b = 58 then some ([], rest)
    else (splitColon rest).map fun p => (b :: p.1, p.2)

/-- ASCII white space as trimmed by `strings.TrimSpace` (the trailer bytes
relevant to the spec are ASCII). -/
def isSpace (b : Nat) : Bool := b = 32 || (9 ≤ b && b ≤ 13)

/-- `strings.TrimSpace` on ASCII bytes. -/
def trimSpace (l : List Nat) : List Nat :=
  ((l.dropWhile isSpace).reverse.dropWhile isSpace).reverse

/-- `strings.ToLower` on one ASCII byte. -/
def asciiLower (b : Nat) : Nat := if 65 ≤ b ∧ b ≤ 90 then b + 32 else b

/-- Leading decimal digits of a byte string. -/
def takeDigits (l : List Nat) : List Nat := l.takeWhile fun b => 48 ≤ b && b ≤ 57

/-- Numeric value of a digit-byte string. -/
def decVal (ds : List Nat) : Nat := ds.foldl (fun acc d => acc * 10 + (d - 48)) 0

/-- `fmt.Sscanf(value, "%d", &code)` with `code` initialised to 0: scan an
optional sign and the leading run of decimal digits; on any scan error
(no digits, or 64-bit overflow) the variable keeps its zero value. -/
def parseDec (l : List Nat) : Int :=
  match l with
  | 45 :: rest =>
    let ds := takeDigits rest
    if ds = [] then 0
    else if decVal ds ≤ 9223372036854775808 then -(decVal ds : Int) else 0
  | 43 :: rest =>
    let ds := takeDigits rest
    if ds = [] then 0
    else if decVal ds ≤ 9223372036854775807 then (decVal ds : Int) else 0
  | _ =>
    let ds := takeDigits l
    if ds = [] then 0
    else if decVal ds ≤ 9223372036854775807 then (decVal ds : Int) else 0

/-- One iteration of the `parseTrailers` scan loop: skip blank lines and
lines without a colon; otherwise record the trimmed, lower-cased key
(last write wins via `mapSet`) and update the status for the keys
`grpc-status` and `grpc-message` exactly as the Go code does (allocating
the status on first use, so the other field keeps its zero value). -/
def trailerStep (st : List (List Nat × List Nat) × Option Status) (line : List Nat) :
    List (List Nat × List Nat) × Option Status :=
  if line = [] then st
  else
    match splitColon line with
    | none => st
    | some (k0, v0) =>
      let key := trimSpace (k0.map asciiLower)
      let value := trimSpace v0
      let m := mapSet st.1 key value
      if key = strBytes "grpc-status" then
        let prev := st.2.getD ⟨0, []⟩
        (m, some ⟨parseDec value, prev.message⟩)
      else if key = strBytes "grpc-message" then
        let prev := st.2.getD ⟨0, []⟩
        (m, some ⟨prev.code, value⟩)
      else (m, st.2)

/-- `parseTrailers`: fold the scan loop over the lines of the trailer
payload. -/
def parseTrailers (data : List Nat) : List (List Nat × List Nat) × Option Status :=
  (scanLines data).foldl trailerStep ([], none)

/-- `protocol.DecodedResponse`. -/
structure DecodedResponse where
  messages : List (List Nat)
  trailers : List (List Nat × List Nat)
  status : Option Status
deriving DecidableEq

/-- One iteration of the frame loop in `DecodeResponse`: a frame with tag
exactly `0x00` (`FrameData`) is appended to the messages; a frame whose tag
has the high bit set (the explicit `FrameTrailer` case and the `default`
case of the Go switch behave identically) is parsed as trailers, merged
into the trailer map, and its status, when present, replaces the current
one; every other frame is ignored. -/
def respStep (resp : DecodedResponse) (f : Frame) : DecodedResponse :=
  if f.type = 0 then { resp with messages := resp.messages ++ [f.payload] }
  else if f.type &&& 128 ≠ 0 then
    let ts := parseTrailers f.payload
    { resp with
      trailers := ts.1.foldl (fun acc kv => mapSet acc kv.1 kv.2) resp.trailers,
      status := match ts.2 with
        | some s => some s
        | none => resp.status }
  else resp

/-- `protocol.DecodeResponse`: decode all frames with a fresh default
decoder, fail on any non-EOF decode error, then partition the frames. -/
def DecodeResponse (data : List Nat) : Except DecodeErr DecodedResponse :=
  let r := DecodeAll MaxMessageSize data
  match r.2 with
  | some e => .error e
  | none => .ok (r.1.foldl respStep ⟨[], [], none⟩)

/-! ## Reflection response extractors (pkg/client/reflection.go) -/

/-- Two's-complement reinterpretation of `n mod 2^64` as a Go `int`. -/
def toInt64 (n : Nat) : Int :=
  let u := n % 18446744073709551616
  if u < 9223372036854775808 then (u : Int) else (u : Int) - 18446744073709551616

/-- Accumulation loop of `readVarint`: each byte contributes its low 7 bits
at the current shift (`value |= int(byteVal&0x7f) << shift`), at most 10
bytes are consumed, and the loop stops early at a byte whose continuation
bit is clear.  Returns the raw accumulated bits and the byte count. -/
def readVarintAux : Nat → Nat → List Nat → Nat × Nat
  | 0, _, _ => (0, 0)
  | _ + 1, _, [] => (0, 0)
  | fuel + 1, shift, b :: rest =>
    let term := (b &&& 127) <<< shift
    if b &&& 128 = 0 then (term, 1)
    else
      let r := readVarintAux fuel (shift + 7) rest
      (term ||| r.1, r.2 + 1)

/-- `readVarint`: the value is a Go `int`, i.e. the 64-bit two's-complement
truncation of the accumulated bits, so an overlong varint can yield a
negative value; no error is ever signalled. -/
def readVarint (data : List Nat) : Int × Nat :=
  let r := readVarintAux 10 0 data
  (toInt64 r.1, r.2)

/-- The inline varint skip loop
`for pos < len(data) && data[pos]&0x80 != 0 { pos++ }; pos++`. -/
def skipVarint (data : List Nat) : List Nat :=
  (data.dropWhile fun b => b &&& 128 != 0).drop 1

/-- Go `int` addition with 64-bit two's-complement wrap-around, as in
`pos + length` (a near-maximal positive varint length can overflow the
addition and wrap negative). -/
def int64Add (a b : Int) : Int :=
  let u := (a + b).emod 18446744073709551616
  if u < 9223372036854775808 then u else u - 18446744073709551616

/-- Outcome of one of the Go reflection field-walking loops: a normal
return, a panic (a negative index, or slice bounds out of range), or
divergence.  The loops are modelled position-faithfully: `pos` is a Go
`int` and `pos += length` can move it backwards or wrap.  Each loop's
control state over its fixed buffer is just `pos`, and every iteration
that neither exits nor panics starts at a position in `[0, len)`; a run of
more than `len + 1` iterations has therefore revisited a position, and the
deterministic loop then runs forever.  Exhausting `len + 2` fuel is thus
exactly the set of diverging runs. -/
inductive WalkResult (α : Type) where
  | ok (value : α)
  | panics
  | diverges
deriving DecidableEq

/-- The inline varint skip loop
`for pos < len(data) && data[pos]&0x80 != 0 { pos++ }; pos++`, starting at
the non-negative position just after a tag byte. -/
def skipVarintPos (data : List Nat) (pos : Int) : Int :=
  pos + ((data.drop pos.toNat).takeWhile fun b => b &&& 128 != 0).length + 1

/-- The `parseServiceName` loop over `data` at position `pos` (fuelled as
described at `WalkResult`).  For field 1 the bound check
`pos+length <= len(data)` runs on the wrapped sum, and the slice
`data[pos : pos+length]` panics when the upper bound falls below `pos`
(negative or overflowed length); in the other length-delimited branch
`pos += length` simply moves the cursor and the loop continues. -/
def svcNameLoop (data : List Nat) : Nat → Int → WalkResult (List Nat)
  | 0, _ => .diverges
  | fuel + 1, pos =>
    if pos < (data.length : Int) then
      if pos < 0 then .panics
      else
        let tag := data.getD pos.toNat 0
        let fieldNum := tag >>> 3
        let wireType := tag &&& 7
        let pos1 : Int := pos + 1
        if wireType = 2 ∧ fieldNum = 1 then
          if pos1 ≥ (data.length : Int) then .ok []
          else
            let v := readVarint (data.drop pos1.toNat)
            let pos2 : Int := pos1 + v.2
            let stop := int64Add pos2 v.1
            if stop ≤ (data.length : Int) then
              if pos2 ≤ stop then .ok ((data.drop pos2.toNat).take (stop - pos2).toNat)
              else .panics
            else svcNameLoop data fuel pos2
        else if wireType = 2 then
          if pos1 ≥ (data.length : Int) then .ok []
          else
            let v := readVarint (data.drop pos1.toNat)
            svcNameLoop data fuel (int64Add (pos1 + v.2) v.1)
        else if wireType = 0 then svcNameLoop data fuel (skipVarintPos data pos1)
        else svcNameLoop data fuel (pos1 + 1)
    else .ok []

/-- `parseServiceName`: extract the field-1 string of a `ServiceResponse`
(empty when absent). -/
def parseServiceName (data : List Nat) : WalkResult (List Nat) :=
  svcNameLoop data (data.length + 2) 0

/-- The `parseServiceList` loop (fuelled as described at `WalkResult`),
accumulating names in encounter order.  The loop uses `if`/`else`, so
`break` on an overrunning length ends the loop, returning the names
collected so far; a field-1 slice with its wrapped upper bound below `pos`
panics, and in the skip path `pos += length` just moves the cursor. -/
def svcListLoop (data : List Nat) :
    Nat → Int → List (List Nat) → WalkResult (List (List Nat))
  | 0, _, _ => .diverges
  | fuel + 1, pos, acc =>
    if pos < (data.length : Int) then
      if pos < 0 then .panics
      else
        let tag := data.getD pos.toNat 0
        let fieldNum := tag >>> 3
        let wireType := tag &&& 7
        let pos1 : Int := pos + 1
        if wireType = 2 then
          if pos1 ≥ (data.length : Int) then .ok acc
          else
            let v := readVarint (data.drop pos1.toNat)
            let pos2 : Int := pos1 + v.2
            let stop := int64Add pos2 v.1
            if stop > (data.length : Int) then .ok acc
            else if fieldNum = 1 then
              if pos2 ≤ stop then
                match parseServiceName ((data.drop pos2.toNat).take (stop - pos2).toNat) with
                | .ok name =>
                  svcListLoop data fuel stop (if name ≠ [] then acc ++ [name] else acc)
                | .panics => .panics
                | .diverges => .diverges
              else .panics
            else svcListLoop data fuel stop acc
        else if wireType = 0 then svcListLoop data fuel (skipVarintPos data pos1) acc
        else svcListLoop data fuel (pos1 + 1) acc
    else .ok acc

/-- `parseServiceList`: names of the repeated field-1 `ServiceResponse`
entries of a `ListServiceResponse`, in encounter order. -/
def parseServiceList (data : List Nat) : WalkResult (List (List Nat)) :=
  svcListLoop data (data.length + 2) 0 []

/-- The `parseListServicesResponse` loop (fuelled as described at
`WalkResult`).  This loop dispatches on the wire type with a `switch`, so
`break` on an overrunning length leaves only the switch and the loop
continues scanning at the current position, unlike the `if`-based sibling
loops. -/
def listSvcLoop (data : List Nat) :
    Nat → Int → List (List Nat) → WalkResult (List (List Nat))
  | 0, _, _ => .diverges
  | fuel + 1, pos, acc =>
    if pos < (data.length : Int) then
      if pos < 0 then .panics
      else
        let tag := data.getD pos.toNat 0
        let fieldNum := tag >>> 3
        let wireType := tag &&& 7
        let pos1 : Int := pos + 1
        if wireType = 0 then listSvcLoop data fuel (skipVarintPos data pos1) acc
        else if wireType = 2 then
          if pos1 ≥ (data.length : Int) then .ok acc
          else
            let v := readVarint (data.drop pos1.toNat)
            let pos2 : Int := pos1 + v.2
            let stop := int64Add pos2 v.1
            if stop > (data.length : Int) then listSvcLoop data fuel pos2 acc
            else if fieldNum = 6 then
              if pos2 ≤ stop then
                match parseServiceList ((data.drop pos2.toNat).take (stop - pos2).toNat) with
                | .ok ns => listSvcLoop data fuel stop (acc ++ ns)
                | .panics => .panics
                | .diverges => .diverges
              else .panics
            else listSvcLoop data fuel stop acc
        else listSvcLoop data fuel (pos1 + 1) acc
    else .ok acc

/-- `parseListServicesResponse`: service names found under the field-6
`list_services_response` entries of a `ServerReflectionResponse` (the Go
function always returns a nil error). -/
def parseListServicesResponse (data : List Nat) : WalkResult (List (List Nat)) :=
  listSvcLoop data (data.length + 2) 0 []

/-- Decimal digits of a (non-negative) Go int, as bytes (`fmt` `%d`). -/
def decBytes (n : Nat) : List Nat := (Nat.toDigits 10 n).map Char.toNat

/-- Recursion core of the `parseErrorResponse` field walk, carrying the
`errorCode`/`errorMessage` state.  All lengths here are read as single
bytes.  `none` marks the Go panic: reading the field-1 code byte with
`errorCode = int(data[pos])` when `pos` is already at the end of the
buffer indexes out of range. -/
def parseErrRespGo : Nat → List Nat → Nat → List Nat → Option (Nat × List Nat)
  | 0, _, code, msg => some (code, msg)
  | _ + 1, [], code, msg => some (code, msg)
  | fuel + 1, tag :: rest, code, msg =>
    let fieldNum := tag >>> 3
    let wireType := tag &&& 7
    if wireType = 0 ∧ fieldNum = 1 then
      match rest with
      | [] => none
      | b :: rest2 => parseErrRespGo fuel rest2 b msg
    else if wireType = 2 ∧ fieldNum = 2 then
      match rest with
      | [] => some (code, msg)
      | lenB :: rest2 =>
        let msg2 := if lenB ≤ rest2.length then rest2.take lenB else msg
        parseErrRespGo fuel (rest2.drop lenB) code msg2
    else if wireType = 2 then
      match rest with
      | [] => some (code, msg)
      | lenB :: rest2 => parseErrRespGo fuel (rest2.drop lenB) code msg
    else parseErrRespGo fuel (rest.drop 1) code msg

/-- `parseErrorResponse`: walk the buffer for the code (field 1) and message
(field 2), then format `"%s (code %d)"`, or `"error code %d"` when only a
code was seen, or the empty string. -/
def parseErrorResponse (data : List Nat) : Option (List Nat) :=
  match parseErrRespGo (data.length + 1) data 0 [] with
  | none => none
  | some (code, msg) =>
    if msg ≠ [] then some (msg ++ strBytes " (code " ++ decBytes code ++ strBytes ")")
    else if code ≠ 0 then some (strBytes "error code " ++ decBytes code)
    else some []

/-- Recursion core of `parseReflectionError`.  The length of a
length-delimited field is read as a single byte (`length := int(data[pos])`,
not a varint), and the field-7 slice `data[pos : pos+length]` is taken with
no bound check, so a declared length past the end of the buffer panics
(`none`). -/
def parseReflErrGo : Nat → List Nat → Option (List Nat)
  | 0, _ => some []
  | _ + 1, [] => some []
  | fuel + 1, tag :: rest =>
    let fieldNum := tag >>> 3
    let wireType := tag &&& 7
    if wireType = 2 then
      match rest with
      | [] => some []
      | lenB :: rest2 =>
        if fieldNum = 7 then
          if lenB ≤ rest2.length then parseErrorResponse (rest2.take lenB) else none
        else parseReflErrGo fuel (rest2.drop lenB)
    else if wireType = 0 then parseReflErrGo fuel (skipVarint rest)
    else parseReflErrGo fuel (rest.drop 1)

/-- `parseReflectionError`: the in-band error text of a reflection response
(field 7), or the empty string when none is present. -/
def parseReflectionError (data : List Nat) : Option (List Nat) :=
  parseReflErrGo (data.length + 1) data

/-- Go string comparison, as used by `sort.Strings`: lexicographic byte
order. -/
def lexLe : List Nat → List Nat → Bool
  | [], _ => true
  | _ :: _, [] => false
  | x :: xs, y :: ys => if x < y then true else if y < x then false else lexLe xs ys

/-- `sort.Strings` (outputs of a sort agree for any correct sorting of a
total order on values, so insertion sort models Go's pdqsort exactly). -/
def sortStrings (l : List (List Nat)) : List (List Nat) :=
  List.insertionSort (fun a b => lexLe a b = true) l

/-- Outcome of `ReflectionClient.ListServices` on a response message:
success, the in-band reflection error, a panic in one of the parsers, or
divergence of the service-list walk. -/
inductive LSResult where
  | panics
  | diverges
  | errOut (msg : List Nat)
  | ok (services : List (List Nat))
deriving DecidableEq

/-- The fixed note appended to the in-band reflection error text. -/
def reflectionNote : List Nat :=
  strBytes "\n\nNote: Server reflection uses bidirectional streaming which has limited support over gRPC-Web.\nConsider using proto files instead: grpcwebcurl -p <proto-file> ..."

/-- Response-processing logic of `ReflectionClient.ListServices` (the part
after transport and outer-status checks): parse the service names, check
for an in-band error response (field 7) and fail with its text when one is
reported, otherwise sort the names lexicographically.  `panics` marks
inputs on which the Go parsers panic. -/
def ListServicesFromResponse (data : List Nat) : LSResult :=
  match parseListServicesResponse data with
  | .panics => .panics
  | .diverges => .diverges
  | .ok services =>
    match parseReflectionError data with
    | none => .panics
    | some errMsg =>
      if errMsg ≠ [] then
        .errOut (strBytes "reflection error: " ++ errMsg ++ reflectionNote)
      else .ok (sortStrings services)

/-! ## ParseServiceMethod (pkg/descriptor) -/

/-- `strings.Split(s, "/")` on characters. -/
def splitSlash : List Char → List (List Char)
  | [] => [[]]
  | c :: rest =>
    if c = '/' then [] :: splitSlash rest
    else
      match splitSlash rest with
      | [] => [[c]]
      | p :: ps => (c :: p) :: ps

/-- `descriptor.ParseServiceMethod`: split on `/` and require exactly two
parts; any other shape is the "invalid method format" error (`none`). -/
def ParseServiceMethod (fullMethod : List Char) : Option (List Char × List Char) :=
  match splitSlash fullMethod with
  | [service, method] => some (service, method)
  | _ => none

/-! ## Specification-side definitions -/

/-- The key/value pair recorded for one trailer line, as the specification
describes it: blank lines and lines without a colon are skipped, keys are
lower-cased and trimmed, values trimmed. -/
def lineKV (line : List Nat) : Option (List Nat × List Nat) :=
  if line = [] then none
  else
    match splitColon line with
    | none => none
    | some (k0, v0) => some (trimSpace (k0.map asciiLower), trimSpace v0)

/-- Key/value pairs of all recorded trailer lines, in line order. -/
def trailerPairs (data : List Nat) : List (List Nat × List Nat) :=
  (scanLines data).filterMap lineKV

/-- Value of the last pair carrying a given key (last write wins). -/
def lastVal (ps : List (List Nat × List Nat)) (k : List Nat) : Option (List Nat) :=
  (ps.reverse.find? fun kv => kv.1 == k).map Prod.snd

/-- Claim-side trailer lookup: the recorded value of a key is the value of
its last line (last write wins on duplicates). -/
def specLookup (data k : List Nat) : Option (List Nat) :=
  lastVal (trailerPairs data) k

/-- Effective status code of a decoded response: the recorded code, or 0 by
convention when no trailer produced a status. -/
def effCode (resp : DecodedResponse) : Int := (resp.status.map Status.code).getD 0

/-- Effective status message of a decoded response. -/
def effMsg (resp : DecodedResponse) : List Nat := (resp.status.map Status.message).getD []

/-- Status derivation described by the specification: a status is present
exactly when one of the two keys is; its code is the parse of the last
`grpc-status` value (0 on parse failure or absence) and its message the
last `grpc-message` value. -/
def deriveStatus (m : List (List Nat × List Nat)) : Option Status :=
  match mapGet m (strBytes "grpc-status"), mapGet m (strBytes "grpc-message") with
  | none, none => none
  | cs, ms => some ⟨(cs.map parseDec).getD 0, ms.getD []⟩

/-- A trailer payload whose first line is 65536 newline-free bytes —
over `bufio.Scanner`'s token cap — followed by an ordinary terminated
`grpc-status: 3` line. -/
def longTrailerPayload : List Nat :=
  List.replicate 65536 120 ++ [10] ++ strBytes "grpc-status: 3\r\n"

deriving instance DecidableEq for Except

/-! ## Lemmas about the frame codec -/

theorem beBytes32_length (n : Nat) : (beBytes32 n).length = 4 := rfl

theorem EncodeFrame_length (flag : Nat) (p : List Nat) :
    (EncodeFrame flag p).length = 5 + p.length := by
  simp [EncodeFrame, beBytes32]
  omega

theorem DecodeFrame_ok_length {max : Nat} {input : List Nat} {f : Frame} {rest : List Nat}
    (h : DecodeFrame max input = .ok (f, rest)) : rest.length + 5 ≤ input.length := by
  match input with
  | [] => simp [DecodeFrame] at h
  | [_] => simp [DecodeFrame] at h
  | [_, _] => simp [DecodeFrame] at h
  | [_, _, _] => simp [DecodeFrame] at h
  | [_, _, _, _] => simp [DecodeFrame] at h
  | t :: b1 :: b2 :: b3 :: b4 :: r =>
    simp only [DecodeFrame] at h
    split at h
    · exact absurd h (by simp)
    split at h
    · exact absurd h (by simp)
    simp only [Except.ok.injEq, Prod.mk.injEq] at h
    obtain ⟨-, h2⟩ := h
    subst h2
    simp only [List.length_cons, List.length_drop]
    omega

theorem decodeAllGo_congr (max : Nat) :
    ∀ f1 f2 input, input.length < f1 → input.length < f2 →
      decodeAllGo max f1 input = decodeAllGo max f2 input := by
  intro f1
  induction f1 with
  | zero => intro f2 input h1 _; omega
  | succ n ih =>
    intro f2 input h1 h2
    cases f2 with
    | zero => omega
    | succ m =>
      cases hd : DecodeFrame max input with
      | error e => cases e <;> simp [decodeAllGo, hd]
      | ok fr =>
        obtain ⟨f, rest⟩ := fr
        have hl := DecodeFrame_ok_length hd
        have e := ih m rest (by omega) (by omega)
        simp [decodeAllGo, hd, e]

theorem decodeDataGo_congr (max : Nat) :
    ∀ f1 f2 input, input.length < f1 → input.length < f2 →
      decodeDataGo max f1 input = decodeDataGo max f2 input := by
  intro f1
  induction f1 with
  | zero => intro f2 input h1 _; omega
  | succ n ih =>
    intro f2 input h1 h2
    cases f2 with
    | zero => omega
    | succ m =>
      cases hd : DecodeFrame max input with
      | error e => simp [decodeDataGo, hd]
      | ok fr =>
        obtain ⟨f, rest⟩ := fr
        have hl := DecodeFrame_ok_length hd
        have e := ih m rest (by omega) (by omega)
        simp [decodeDataGo, hd, e]

theorem DecodeFrame_encodeFrame (max flag : Nat) (p rest : List Nat)
    (hlt : p.length < 4294967296) (hmax : p.length ≤ max) :
    DecodeFrame max (EncodeFrame flag p ++ rest) = .ok (⟨flag, p⟩, rest) := by
  have hu : p.length % 4294967296 = p.length := Nat.mod_eq_of_lt hlt
  simp only [EncodeFrame, beBytes32, hu, List.cons_append, List.append_assoc,
    List.nil_append]
  simp only [DecodeFrame]
  have hval : beVal32 (p.length / 16777216 % 256) (p.length / 65536 % 256)
      (p.length / 256 % 256) (p.length % 256) = p.length := by
    unfold beVal32; omega
  rw [hval]
  rw [if_neg (by omega)]
  rw [if_neg (by simp only [List.length_append]; omega)]
  rw [List.take_left, List.drop_left]

theorem DecodeAll_nil (max : Nat) : DecodeAll max [] = ([], none) := rfl

theorem DecodeAll_ok_step {max : Nat} {input : List Nat} {f : Frame} {rest : List Nat}
    (hd : DecodeFrame max input = .ok (f, rest)) :
    DecodeAll max input = (f :: (DecodeAll max rest).1, (DecodeAll max rest).2) := by
  have hl := DecodeFrame_ok_length hd
  have hc := decodeAllGo_congr max input.length (rest.length + 1) rest (by omega) (by omega)
  show decodeAllGo max (input.length + 1) input = _
  rw [decodeAllGo, hd]
  show (f :: (decodeAllGo max input.length rest).1, (decodeAllGo max input.length rest).2) = _
  rw [hc]
  rfl

theorem DecodeAll_encodeFrame (max flag : Nat) (p rest : List Nat)
    (hlt : p.length < 4294967296) (hmax : p.length ≤ max) :
    DecodeAll max (EncodeFrame flag p ++ rest) =
      (⟨flag, p⟩ :: (DecodeAll max rest).1, (DecodeAll max rest).2) :=
  DecodeAll_ok_step (DecodeFrame_encodeFrame max flag p rest hlt hmax)

theorem Decode_ok_step {max : Nat} {input : List Nat} {f : Frame} {rest : List Nat}
    (hd : DecodeFrame max input = .ok (f, rest)) :
    Decode max input = if f.type = 0 then .ok f.payload else Decode max rest := by
  have hl := DecodeFrame_ok_length hd
  have hc := decodeDataGo_congr max input.length (rest.length + 1) rest (by omega) (by omega)
  show decodeDataGo max (input.length + 1) input = _
  rw [decodeDataGo, hd]
  show (if f.type = 0 then Except.ok f.payload else decodeDataGo max input.length rest) = _
  rw [hc]
  rfl

theorem Decode_encodeFrame_data (max : Nat) (p : List Nat)
    (hlt : p.length < 4294967296) (hmax : p.length ≤ max) :
    Decode max (EncodeFrame 0 p) = .ok p := by
  have hd := DecodeFrame_encodeFrame max 0 p [] hlt hmax
  rw [List.append_nil] at hd
  rw [Decode_ok_step hd]
  simp

/-! ## Claim C10 -/

/-- C10: encoding a frame writes exactly one tag byte (0x00 for Data, 0x80
for Trailer), then the payload length as four big-endian bytes, then the
payload itself; the empty Data payload encodes to the five zero bytes. -/
theorem c10_encode_layout (tag : Nat) (p : List Nat) (htag : tag = 0 ∨ tag = 128)
    (hlt : p.length < 4294967296) :
    (∃ b1 b2 b3 b4, EncodeFrame tag p = tag :: [b1, b2, b3, b4] ++ p ∧
      b1 < 256 ∧ b2 < 256 ∧ b3 < 256 ∧ b4 < 256 ∧ beVal32 b1 b2 b3 b4 = p.length) ∧
    EncodeMessage [] = [0, 0, 0, 0, 0] := by
  constructor
  · have hu : p.length % 4294967296 = p.length := Nat.mod_eq_of_lt hlt
    refine ⟨p.length / 16777216 % 256, p.length / 65536 % 256, p.length / 256 % 256,
      p.length % 256, ?_, ?_, ?_, ?_, ?_, ?_⟩
    · simp [EncodeFrame, beBytes32, hu]
    · omega
    · omega
    · omega
    · omega
    · unfold beVal32; omega
  · rfl

theorem c10_encode_layout_witness :
    ((0 : Nat) = 0 ∨ (0 : Nat) = 128) ∧
    (∃ b1 b2 b3 b4, EncodeFrame 0 [7] = 0 :: [b1, b2, b3, b4] ++ [7] ∧
      b1 < 256 ∧ b2 < 256 ∧ b3 < 256 ∧ b4 < 256 ∧ beVal32 b1 b2 b3 b4 = [7].length) ∧
    EncodeMessage [] = [0, 0, 0, 0, 0] := by
  refine ⟨Or.inl rfl, ?_⟩
  exact c10_encode_layout 0 [7] (Or.inl rfl) (by decide)

/-! ## Claim C4 -/

/-- C4: a frame whose declared 4-byte big-endian length exceeds the
decoder's configured maximum fails with the explicit size-exceeds error,
whatever bytes follow the header — in particular the payload is never
touched (the conclusion does not depend on `rest`, which may even be
shorter than the declared length). -/
theorem c4_size_limit (maxMsgSize flag lengthVal : Nat) (rest : List Nat)
    (hlt : lengthVal < 4294967296) (h : lengthVal > maxMsgSize) :
    DecodeFrame maxMsgSize (flag :: beBytes32 lengthVal ++ rest) =
      .error (.sizeExceeded lengthVal maxMsgSize) := by
  have hu : lengthVal % 4294967296 = lengthVal := Nat.mod_eq_of_lt hlt
  simp only [beBytes32, hu, List.cons_append, List.nil_append]
  simp only [DecodeFrame]
  have hval : beVal32 (lengthVal / 16777216 % 256) (lengthVal / 65536 % 256)
      (lengthVal / 256 % 256) (lengthVal % 256) = lengthVal := by
    unfold beVal32; omega
  rw [hval, if_pos h]

theorem c4_size_limit_witness :
    (65536 : Nat) < 4294967296 ∧ (65536 : Nat) > 1000 ∧
    DecodeFrame 1000 (0 :: beBytes32 65536 ++ []) = .error (.sizeExceeded 65536 1000) :=
  ⟨by decide, by decide, c4_size_limit 1000 0 65536 [] (by decide) (by decide)⟩

/-! ## Claim C2 -/

/-- C2 fails as stated: a payload longer than the decoder's 16 MiB default
maximum encodes fine but fails to decode, so the round trip does not hold
for every payload.  At a payload of 16777217 zero bytes the decode side
rejects the frame with the size-limit error instead of returning the
payload. -/
theorem Decode_err_step {max : Nat} {input : List Nat} {e : DecodeErr}
    (hd : DecodeFrame max input = .error e) : Decode max input = .error e := by
  show decodeDataGo max (input.length + 1) input = _
  rw [decodeDataGo, hd]

theorem c2_counterexample :
    DecodeMessage (EncodeMessage (List.replicate 16777217 0)) =
      .error (.sizeExceeded 16777217 16777216) := by
  have hlen : (List.replicate 16777217 (0 : Nat)).length = 16777217 :=
    List.length_replicate 16777217 0
  have henc : EncodeMessage (List.replicate 16777217 0) =
      0 :: 1 :: 0 :: 0 :: 1 :: List.replicate 16777217 0 := by
    simp only [EncodeMessage, EncodeFrame, hlen]
    rw [show beBytes32 16777217 = [1, 0, 0, 1] from by decide]
    simp only [List.cons_append, List.nil_append]
  have hd : DecodeFrame MaxMessageSize (0 :: 1 :: 0 :: 0 :: 1 :: List.replicate 16777217 0) =
      .error (.sizeExceeded 16777217 16777216) := by
    simp only [DecodeFrame]
    rw [show beVal32 1 0 0 1 = 16777217 from by decide]
    rw [if_pos (by decide : (16777217 : Nat) > MaxMessageSize)]
    rfl
  unfold DecodeMessage
  rw [henc]
  exact Decode_err_step hd

/-- C2 amended: for every payload of at most `MaxMessageSize` (16 MiB)
bytes — the decoder's configured maximum — decoding the encoding of a Data
frame yields back exactly the payload. -/
theorem c2_roundtrip (p : List Nat) (h : p.length ≤ MaxMessageSize) :
    DecodeMessage (EncodeMessage p) = .ok p := by
  unfold DecodeMessage EncodeMessage
  exact Decode_encodeFrame_data MaxMessageSize p
    (by unfold MaxMessageSize at h; omega) h

theorem c2_roundtrip_witness :
    ([1, 2, 3] : List Nat).length ≤ MaxMessageSize ∧
    DecodeMessage (EncodeMessage [1, 2, 3]) = .ok [1, 2, 3] :=
  ⟨by decide, c2_roundtrip [1, 2, 3] (by decide)⟩

/-! ## Claim C1 -/

/-- C1 fails on the code: the reflection error extractor is not total.  On
the two-byte response `[0x3a, 0x05]` — field 7, wire type 2, declared
length 5, with no payload bytes left — the Go code slices
`data[pos : pos+length]` past the end of the buffer without a bound check
and panics; `none` is the model of that panic.  `parseErrorResponse`
likewise panics reading the field-1 code byte when the buffer ends right
after the tag.  (The service-list and file-descriptor extractors check
this particular bound, so the claimed totality fails specifically in the
error extractor.) -/
theorem c1_error_extractor_panics :
    parseReflectionError [58, 5] = none ∧ parseErrorResponse [8] = none := by
  constructor
  · decide
  · decide

/-! ## Claim C5 -/

/-- C5 fails as stated: `readVarint` cannot fail — its return type carries
no error — and on a buffer of eleven continuation bytes it simply stops
after consuming ten of them and returns the accumulated value `(0, 10)`
instead of a decoding error. -/
theorem c5_counterexample : readVarint (List.replicate 11 128) = (0, 10) := by decide

theorem readVarintAux_count_le : ∀ fuel shift data, (readVarintAux fuel shift data).2 ≤ fuel := by
  intro fuel
  induction fuel with
  | zero => intro shift data; simp [readVarintAux]
  | succ n ih =>
    intro shift data
    cases data with
    | nil => simp [readVarintAux]
    | cons b rest =>
      simp only [readVarintAux]
      split
      · simp
      · have := ih (shift + 7) rest
        simp
        omega

theorem readVarintAux_count_full : ∀ fuel shift data, fuel ≤ data.length →
    (∀ b ∈ data.take fuel, b &&& 128 ≠ 0) → (readVarintAux fuel shift data).2 = fuel := by
  intro fuel
  induction fuel with
  | zero => intro shift data _ _; simp [readVarintAux]
  | succ n ih =>
    intro shift data hlen hcont
    cases data with
    | nil => simp at hlen
    | cons b rest =>
      have hb : b &&& 128 ≠ 0 := hcont b (by simp [List.take_cons])
      simp only [readVarintAux]
      rw [if_neg hb]
      have := ih (shift + 7) rest (by simp at hlen; omega)
        (fun x hx => hcont x (by simp [List.take_cons]; right; exact hx))
      simp [this]

/-- C5 amended: the varint reader never signals an error; it always returns
a value together with a byte count of at most 10, and when the first ten
bytes of the buffer all carry the continuation bit it consumes exactly ten
bytes and returns normally. -/
theorem c5_readVarint_caps (data : List Nat) :
    (readVarint data).2 ≤ 10 ∧
    (10 ≤ data.length → (∀ b ∈ data.take 10, b &&& 128 ≠ 0) → (readVarint data).2 = 10) := by
  constructor
  · exact readVarintAux_count_le 10 0 data
  · intro hlen hcont
    exact readVarintAux_count_full 10 0 data hlen hcont

theorem c5_readVarint_caps_witness :
    (readVarint (List.replicate 12 255)).2 ≤ 10 ∧ (readVarint (List.replicate 12 255)).2 = 10 :=
  ⟨(c5_readVarint_caps (List.replicate 12 255)).1,
   (c5_readVarint_caps (List.replicate 12 255)).2 (by decide) (by decide)⟩

/-! ## Claim C8 -/

theorem splitSlash_ne_nil : ∀ s : List Char, splitSlash s ≠ [] := by
  intro s
  induction s with
  | nil => simp [splitSlash]
  | cons c rest ih =>
    simp only [splitSlash]
    split
    · simp
    · cases h : splitSlash rest with
      | nil => simp
      | cons p ps => simp

theorem splitSlash_length : ∀ s : List Char, (splitSlash s).length = s.count '/' + 1 := by
  intro s
  induction s with
  | nil => simp [splitSlash]
  | cons c rest ih =>
    simp only [splitSlash]
    by_cases hc : c = '/'
    · rw [if_pos hc]
      simp only [List.length_cons, ih, List.count_cons]
      rw [if_pos (by simp [hc])]
    · rw [if_neg hc]
      cases h : splitSlash rest with
      | nil => exact absurd h (splitSlash_ne_nil rest)
      | cons p ps =>
        rw [h] at ih
        simp only [List.length_cons] at ih ⊢
        rw [List.count_cons, if_neg (by simp [hc])]
        omega

/-- C8: `ParseServiceMethod` accepts exactly the strings with a single
slash: `"pkg.Svc/Method"` splits into the service and method parts, the
bare `"/"` is accepted and yields two empty strings, and every input with
zero slashes or more than one slash is rejected with the format error. -/
theorem c8_parseServiceMethod :
    ParseServiceMethod "pkg.Svc/Method".data = some ("pkg.Svc".data, "Method".data) ∧
    ParseServiceMethod "/".data = some ([], []) ∧
    (∀ s : List Char, s.count '/' ≠ 1 → ParseServiceMethod s = none) := by
  refine ⟨by decide, by decide, ?_⟩
  intro s hcount
  have hlen := splitSlash_length s
  unfold ParseServiceMethod
  match hs : splitSlash s with
  | [] => rfl
  | [a] => rfl
  | [a, b] =>
    rw [hs] at hlen
    simp only [List.length_cons, List.length_nil] at hlen
    exact absurd (by omega) hcount
  | a :: b :: c :: rest => rfl

theorem c8_parseServiceMethod_witness :
    ("a/b/c".data.count '/' ≠ 1 ∧ ParseServiceMethod "a/b/c".data = none) ∧
    ("pkg.Svc.Method".data.count '/' ≠ 1 ∧ ParseServiceMethod "pkg.Svc.Method".data = none) :=
  ⟨⟨by decide, c8_parseServiceMethod.2.2 "a/b/c".data (by decide)⟩,
   ⟨by decide, c8_parseServiceMethod.2.2 "pkg.Svc.Method".data (by decide)⟩⟩

/-! ## Claim C9 -/

theorem lexLe_total : ∀ a b : List Nat, lexLe a b = true ∨ lexLe b a = true := by
  intro a
  induction a with
  | nil => intro b; left; rfl
  | cons x xs ih =>
    intro b
    cases b with
    | nil => right; rfl
    | cons y ys =>
      simp only [lexLe]
      rcases Nat.lt_trichotomy x y with h | h | h
      · left; rw [if_pos h]
      · subst h
        have hirr : ¬ (x < x) := Nat.lt_irrefl x
        simp only [hirr, if_false]
        exact ih ys
      · right; rw [if_pos h]

theorem lexLe_trans : ∀ a b c : List Nat,
    lexLe a b = true → lexLe b c = true → lexLe a c = true := by
  intro a
  induction a with
  | nil => intro b c _ _; rfl
  | cons x xs ih =>
    intro b c hab hbc
    cases b with
    | nil => simp [lexLe] at hab
    | cons y ys =>
      cases c with
      | nil => simp [lexLe] at hbc
      | cons z zs =>
        simp only [lexLe] at hab hbc ⊢
        by_cases hxy : x < y
        · rw [if_pos hxy] at hab
          by_cases hyz : y < z
          · rw [if_pos (Nat.lt_trans hxy hyz)]
          · rw [if_neg hyz] at hbc
            by_cases hzy : z < y
            · rw [if_pos hzy] at hbc; exact absurd hbc (by simp)
            · have hyv : y = z := by omega
              rw [if_pos (hyv ▸ hxy)]
        · rw [if_neg hxy] at hab
          by_cases hyx : y < x
          · rw [if_pos hyx] at hab; exact absurd hab (by simp)
          · have hxyeq : x = y := by omega
            rw [if_neg hyx] at hab
            subst hxyeq
            by_cases hxz : x < z
            · rw [if_pos hxz]
            · rw [if_neg hxz] at hbc ⊢
              by_cases hzx : z < x
              · rw [if_pos hzx] at hbc; exact absurd hbc (by simp)
              · rw [if_neg hzx] at hbc ⊢
                exact ih ys zs hab hbc

/-- Fidelity probe for the skip paths: a ten-byte varint encoding the Go
`int64` value `-1` as a declared length makes the walker do `pos += -1`
(net one byte forward after the ten length bytes) and keep walking, just
as the Go loop does — it terminates with an empty service list rather
than panicking or diverging. -/
theorem parseListSvc_negative_length_skips :
    parseListServicesResponse [18, 255, 255, 255, 255, 255, 255, 255, 255, 255, 1] =
      .ok [] := by decide

/-- C9 fails as stated: `ListServices` does not filter the introspection
service's own name.  On a response listing exactly the v1 reflection
service, the call succeeds and the returned (sorted) list contains that
name.  (The filtering the specification describes happens only in the
separate descriptor-gathering step `GetSource`.) -/
theorem c9_counterexample :
    ListServicesFromResponse
        ([50, 39, 10, 37, 10, 35] ++ strBytes "grpc.reflection.v1.ServerReflection") =
      .ok [strBytes "grpc.reflection.v1.ServerReflection"] ∧
    strBytes "grpc.reflection.v1.ServerReflection" ∈
      [strBytes "grpc.reflection.v1.ServerReflection"] :=
  ⟨by decide, by decide⟩

/-- C9 amended: every successful `ListServices` result is sorted in
lexicographic byte order, and the underlying extractor returns the nested
service names in encounter order before that sort; the reflection
service's own name is, however, not filtered out (see the counterexample).
The concrete response below carries the entries `svc.Two` then `svc.One`
in that order. -/
theorem c9_listServices_sorted :
    (∀ data l, ListServicesFromResponse data = .ok l →
      List.Sorted (fun a b => lexLe a b = true) l) ∧
    parseServiceList ([10, 9, 10, 7] ++ strBytes "svc.Two" ++ [10, 9, 10, 7] ++ strBytes "svc.One") =
      .ok [strBytes "svc.Two", strBytes "svc.One"] := by
  constructor
  · intro data l h
    unfold ListServicesFromResponse at h
    split at h
    · exact absurd h (by simp)
    · exact absurd h (by simp)
    · split at h
      · exact absurd h (by simp)
      · split at h
        · exact absurd h (by simp)
        · simp only [LSResult.ok.injEq] at h
          subst h
          unfold sortStrings
          haveI : IsTotal (List Nat) (fun a b => lexLe a b = true) := ⟨lexLe_total⟩
          haveI : IsTrans (List Nat) (fun a b => lexLe a b = true) :=
            ⟨fun a b c => lexLe_trans a b c⟩
          exact List.sorted_insertionSort _ _
  · decide

theorem c9_listServices_sorted_witness :
    List.Sorted (fun a b => lexLe a b = true) [strBytes "svc.One", strBytes "svc.Two"] :=
  c9_listServices_sorted.1
    ([50, 22] ++ [10, 9, 10, 7] ++ strBytes "svc.Two" ++ [10, 9, 10, 7] ++ strBytes "svc.One")
    [strBytes "svc.One", strBytes "svc.Two"] (by decide)

/-! ## Claim C7 -/

/-- C7 fails on the code: a well-formed `error_response` (field 7) whose
chunk is 128 bytes or longer is silently ignored instead of surfacing a
hard error.  `parseReflectionError` reads the field length as a single
byte (`length := int(data[pos])`), so for the response
`[0x3a, 0x80, 0x01] ++ chunk` — whose varint length `[0x80, 0x01] = 128`
the service-list walker decodes correctly — the error walker misparses the
chunk and finds no message, and `ListServices` returns a success with an
empty service list.  The first conjunct shows the chunk itself is a
well-formed error response with code 5 and a 124-byte message. -/
theorem c7_long_error_swallowed :
    parseErrorResponse ([8, 5, 18, 124] ++ List.replicate 124 97) =
      some (List.replicate 124 97 ++ strBytes " (code 5)") ∧
    ListServicesFromResponse ([58, 128, 1, 8, 5, 18, 124] ++ List.replicate 124 97) =
      .ok [] :=
  ⟨by decide, by decide⟩

/-! ## Lemmas about the trailer map -/

theorem mapGet_mapSet_self (m : List (List Nat × List Nat)) (k v : List Nat) :
    mapGet (mapSet m k v) k = some v := by
  induction m with
  | nil => simp [mapSet, mapGet]
  | cons kv rest ih =>
    obtain ⟨k', v'⟩ := kv
    simp only [mapSet]
    by_cases h : k' = k
    · rw [if_pos h]
      simp [mapGet]
    · rw [if_neg h]
      simp only [mapGet]
      rw [if_neg h]
      exact ih

theorem mapGet_mapSet_ne (m : List (List Nat × List Nat)) (k v q : List Nat) (h : k ≠ q) :
    mapGet (mapSet m k v) q = mapGet m q := by
  induction m with
  | nil =>
    simp only [mapSet, mapGet]
    rw [if_neg h]
  | cons kv rest ih =>
    obtain ⟨k', v'⟩ := kv
    simp only [mapSet]
    by_cases hk : k' = k
    · rw [if_pos hk]
      have h' : k' ≠ q := by rw [hk]; exact h
      simp only [mapGet]
      rw [if_neg h, if_neg h']
    · rw [if_neg hk]
      simp only [mapGet]
      by_cases hq : k' = q
      · rw [if_pos hq, if_pos hq]
      · rw [if_neg hq, if_neg hq]
        exact ih

theorem lastVal_cons (kv : List Nat × List Nat) (ps : List (List Nat × List Nat)) (k : List Nat) :
    lastVal (kv :: ps) k =
      match lastVal ps k with
      | some v => some v
      | none => if kv.1 = k then some kv.2 else none := by
  unfold lastVal
  rw [List.reverse_cons, List.find?_append]
  cases h : List.find? (fun x => x.1 == k) ps.reverse with
  | none =>
    simp only [Option.or]
    by_cases hk : kv.1 = k
    · have hf : List.find? (fun x => x.1 == k) [kv] = some kv := by
        simp only [List.find?]
        rw [show (kv.1 == k) = true from beq_iff_eq.mpr hk]
      rw [hf]
      simp [hk]
    · have hf : List.find? (fun x => x.1 == k) [kv] = none := by
        simp only [List.find?]
        rw [show (kv.1 == k) = false from beq_eq_false_iff_ne.mpr hk]
      rw [hf]
      simp [hk]
  | some v => simp [Option.or]

theorem mapGet_foldl_mapSet (ps : List (List Nat × List Nat)) :
    ∀ (acc : List (List Nat × List Nat)) (k : List Nat),
      mapGet (ps.foldl (fun a kv => mapSet a kv.1 kv.2) acc) k =
        match lastVal ps k with
        | some v => some v
        | none => mapGet acc k := by
  induction ps with
  | nil => intro acc k; simp [lastVal]
  | cons kv rest ih =>
    intro acc k
    simp only [List.foldl_cons]
    rw [ih, lastVal_cons]
    cases hl : lastVal rest k with
    | some v => rfl
    | none =>
      by_cases hk : kv.1 = k
      · rw [hk] at *
        show mapGet (mapSet acc k kv.2) k = _
        rw [mapGet_mapSet_self]
        simp
      · show mapGet (mapSet acc kv.1 kv.2) k = _
        rw [mapGet_mapSet_ne acc kv.1 kv.2 k hk]
        simp [hk]

theorem trailerStep_fst (st : List (List Nat × List Nat) × Option Status) (line : List Nat) :
    (trailerStep st line).1 =
      match lineKV line with
      | none => st.1
      | some kv => mapSet st.1 kv.1 kv.2 := by
  by_cases hb : line = []
  · subst hb; rfl
  · unfold trailerStep lineKV
    rw [if_neg hb, if_neg hb]
    cases hc : splitColon line with
    | none => rfl
    | some kvp =>
      obtain ⟨k0, v0⟩ := kvp
      dsimp only
      split
      · rfl
      · split
        · rfl
        · rfl

theorem fst_foldl_trailerStep (lines : List (List Nat)) :
    ∀ st, (lines.foldl trailerStep st).1 =
      (lines.filterMap lineKV).foldl (fun a kv => mapSet a kv.1 kv.2) st.1 := by
  induction lines with
  | nil => intro st; rfl
  | cons line rest ih =>
    intro st
    simp only [List.foldl_cons, List.filterMap_cons]
    cases hkv : lineKV line with
    | none =>
      rw [ih]
      have : (trailerStep st line).1 = st.1 := by rw [trailerStep_fst, hkv]
      rw [this]
    | some kv =>
      simp only [List.foldl_cons]
      rw [ih]
      have : (trailerStep st line).1 = mapSet st.1 kv.1 kv.2 := by rw [trailerStep_fst, hkv]
      rw [this]

theorem trailerStep_snd (st : List (List Nat × List Nat) × Option Status) (line : List Nat)
    (hinv : st.2 = deriveStatus st.1) :
    (trailerStep st line).2 = deriveStatus (trailerStep st line).1 := by
  have hne : strBytes "grpc-status" ≠ strBytes "grpc-message" := by decide
  by_cases hb : line = []
  · subst hb; exact hinv
  · unfold trailerStep
    rw [if_neg hb]
    cases hc : splitColon line with
    | none => exact hinv
    | some kvp =>
      obtain ⟨k0, v0⟩ := kvp
      dsimp only
      by_cases h1 : trimSpace (k0.map asciiLower) = strBytes "grpc-status"
      · rw [if_pos h1]
        dsimp only
        rw [h1]
        unfold deriveStatus
        rw [mapGet_mapSet_self]
        rw [mapGet_mapSet_ne st.1 _ _ _ hne]
        unfold deriveStatus at hinv
        cases hgs : mapGet st.1 (strBytes "grpc-status") <;>
          cases hgm : mapGet st.1 (strBytes "grpc-message") <;>
            rw [hgs, hgm] at hinv <;> rw [hinv] <;> rfl
      · rw [if_neg h1]
        by_cases h2 : trimSpace (k0.map asciiLower) = strBytes "grpc-message"
        · rw [if_pos h2]
          dsimp only
          rw [h2]
          unfold deriveStatus
          rw [mapGet_mapSet_self]
          rw [mapGet_mapSet_ne st.1 _ _ _ (Ne.symm hne)]
          unfold deriveStatus at hinv
          cases hgs : mapGet st.1 (strBytes "grpc-status") <;>
            cases hgm : mapGet st.1 (strBytes "grpc-message") <;>
              rw [hgs, hgm] at hinv <;> rw [hinv] <;> rfl
        · rw [if_neg h2]
          dsimp only
          unfold deriveStatus
          rw [mapGet_mapSet_ne st.1 _ _ _ h1, mapGet_mapSet_ne st.1 _ _ _ h2]
          exact hinv

theorem snd_foldl_trailerStep (lines : List (List Nat)) :
    ∀ st, st.2 = deriveStatus st.1 →
      (lines.foldl trailerStep st).2 = deriveStatus (lines.foldl trailerStep st).1 := by
  induction lines with
  | nil => intro st h; exact h
  | cons line rest ih =>
    intro st h
    simp only [List.foldl_cons]
    exact ih _ (trailerStep_snd st line h)

theorem parseTrailers_fst_lookup (data k : List Nat) :
    mapGet (parseTrailers data).1 k = specLookup data k := by
  unfold parseTrailers specLookup trailerPairs
  rw [fst_foldl_trailerStep]
  rw [mapGet_foldl_mapSet]
  cases hl : lastVal ((scanLines data).filterMap lineKV) k with
  | none => rfl
  | some v => rfl

theorem parseTrailers_snd (data : List Nat) :
    (parseTrailers data).2 = deriveStatus (parseTrailers data).1 :=
  snd_foldl_trailerStep (scanLines data) ([], none) rfl

theorem keys_mapSet_subset (m : List (List Nat × List Nat)) (k v : List Nat) :
    ∀ q, q ∈ (mapSet m k v).map Prod.fst → q = k ∨ q ∈ m.map Prod.fst := by
  induction m with
  | nil =>
    intro q hq
    simp [mapSet] at hq
    exact Or.inl hq
  | cons kv' rest ih =>
    obtain ⟨k', v'⟩ := kv'
    intro q hq
    simp only [mapSet] at hq
    by_cases hk : k' = k
    · rw [if_pos hk] at hq
      simp only [List.map_cons, List.mem_cons] at hq
      rcases hq with h | h
      · exact Or.inl h
      · exact Or.inr (by simp only [List.map_cons, List.mem_cons]; exact Or.inr h)
    · rw [if_neg hk] at hq
      simp only [List.map_cons, List.mem_cons] at hq
      rcases hq with h | h
      · exact Or.inr (by simp only [List.map_cons, List.mem_cons]; exact Or.inl h)
      · rcases ih q h with h2 | h2
        · exact Or.inl h2
        · exact Or.inr (by simp only [List.map_cons, List.mem_cons]; exact Or.inr h2)

theorem nodup_keys_mapSet (m : List (List Nat × List Nat)) (k v : List Nat)
    (h : (m.map Prod.fst).Nodup) : ((mapSet m k v).map Prod.fst).Nodup := by
  induction m with
  | nil => simp [mapSet]
  | cons kv' rest ih =>
    obtain ⟨k', v'⟩ := kv'
    simp only [List.map_cons, List.nodup_cons] at h
    obtain ⟨hnot, hrest⟩ := h
    simp only [mapSet]
    by_cases hk : k' = k
    · rw [if_pos hk]
      simp only [List.map_cons, List.nodup_cons]
      exact ⟨hk ▸ hnot, hrest⟩
    · rw [if_neg hk]
      simp only [List.map_cons, List.nodup_cons]
      refine ⟨?_, ih hrest⟩
      intro hmem
      rcases keys_mapSet_subset rest k v k' hmem with h2 | h2
      · exact hk h2
      · exact hnot h2

theorem nodup_keys_foldl_mapSet (ps : List (List Nat × List Nat)) :
    ∀ acc, (acc.map Prod.fst).Nodup →
      ((ps.foldl (fun a kv => mapSet a kv.1 kv.2) acc).map Prod.fst).Nodup := by
  induction ps with
  | nil => intro acc h; exact h
  | cons kv rest ih =>
    intro acc h
    simp only [List.foldl_cons]
    exact ih _ (nodup_keys_mapSet acc kv.1 kv.2 h)

theorem lastVal_eq_none_of_not_mem (m : List (List Nat × List Nat)) (k : List Nat)
    (h : k ∉ m.map Prod.fst) : lastVal m k = none := by
  unfold lastVal
  have : List.find? (fun x => x.1 == k) m.reverse = none := by
    rw [List.find?_eq_none]
    intro x hx
    simp only [beq_iff_eq]
    intro hxk
    exact h (by simp only [List.mem_map]; exact ⟨x, List.mem_reverse.mp hx, hxk⟩)
  rw [this]
  rfl

theorem lastVal_eq_mapGet (m : List (List Nat × List Nat)) (k : List Nat)
    (h : (m.map Prod.fst).Nodup) : lastVal m k = mapGet m k := by
  induction m with
  | nil => rfl
  | cons kv rest ih =>
    simp only [List.map_cons, List.nodup_cons] at h
    obtain ⟨hnot, hrest⟩ := h
    rw [lastVal_cons]
    have hiv := ih hrest
    by_cases hk : kv.1 = k
    · rw [lastVal_eq_none_of_not_mem rest k (hk ▸ hnot)]
      show (if kv.1 = k then some kv.2 else none) = mapGet (kv :: rest) k
      obtain ⟨k', v'⟩ := kv
      simp only [mapGet]
      simp only at hk
      rw [if_pos hk, if_pos hk]
    · obtain ⟨k', v'⟩ := kv
      simp only at hk
      have hr : mapGet ((k', v') :: rest) k = mapGet rest k := by
        simp only [mapGet]
        rw [if_neg hk]
      rw [hr, ← hiv]
      cases hl : lastVal rest k with
      | none => simp [hk]
      | some v => rfl

theorem respStep_trailers_lookup (t k : List Nat) :
    mapGet ((parseTrailers t).1.foldl (fun acc kv => mapSet acc kv.1 kv.2) []) k =
      specLookup t k := by
  have hnd : ((parseTrailers t).1.map Prod.fst).Nodup := by
    unfold parseTrailers
    rw [fst_foldl_trailerStep]
    exact nodup_keys_foldl_mapSet _ _ (by simp)
  rw [mapGet_foldl_mapSet]
  cases hl : lastVal (parseTrailers t).1 k with
  | none =>
    show (none : Option (List Nat)) = specLookup t k
    rw [← parseTrailers_fst_lookup t k, ← lastVal_eq_mapGet _ _ hnd, hl]
  | some v =>
    rw [← parseTrailers_fst_lookup t k, ← lastVal_eq_mapGet _ _ hnd, hl]

theorem deriveStatus_code (m : List (List Nat × List Nat)) :
    ((deriveStatus m).map Status.code).getD 0 =
      ((mapGet m (strBytes "grpc-status")).map parseDec).getD 0 := by
  unfold deriveStatus
  cases hgs : mapGet m (strBytes "grpc-status") <;>
    cases hgm : mapGet m (strBytes "grpc-message") <;> rfl

theorem deriveStatus_message (m : List (List Nat × List Nat)) :
    ((deriveStatus m).map Status.message).getD [] =
      (mapGet m (strBytes "grpc-message")).getD [] := by
  unfold deriveStatus
  cases hgs : mapGet m (strBytes "grpc-status") <;>
    cases hgm : mapGet m (strBytes "grpc-message") <;> rfl

/-! ## Claim C6 -/

/-- C6 fails as stated: `DecodeResponse` only counts a frame as a Data
message when its flag byte is exactly `0x00`.  A frame with flag `0x01`
(high bit clear, a reserved low bit set) matches neither the `FrameData`
case nor the high-bit trailer check, so it is silently dropped: it appears
neither in `messages` nor as a trailer. -/
theorem c6_counterexample :
    DecodeResponse (EncodeFrame 1 [42]) = .ok ⟨[], [], none⟩ := by decide

/-- C6 amended: `DecodeResponse` parses any frame whose flag byte has the
high bit (0x80) set as a trailer frame (the reserved low bits are ignored
there), counts a frame as a Data message only when the flag byte is
exactly `0x00`, and silently ignores every frame whose flag is nonzero
with the high bit clear. -/
theorem c6_flag_classification (flag : Nat) (p : List Nat) (hp : p.length ≤ MaxMessageSize) :
    ∃ resp, DecodeResponse (EncodeFrame flag p) = .ok resp ∧
      (flag &&& 128 ≠ 0 →
        resp.messages = [] ∧
        (∀ k, mapGet resp.trailers k = specLookup p k) ∧
        resp.status = (parseTrailers p).2) ∧
      (flag = 0 → resp = ⟨[p], [], none⟩) ∧
      (flag ≠ 0 → flag &&& 128 = 0 → resp = ⟨[], [], none⟩) := by
  have hda : DecodeAll MaxMessageSize (EncodeFrame flag p) = ([⟨flag, p⟩], none) := by
    have h := DecodeAll_encodeFrame MaxMessageSize flag p []
      (by unfold MaxMessageSize at hp; omega) hp
    rw [List.append_nil] at h
    rw [h, DecodeAll_nil]
  refine ⟨respStep ⟨[], [], none⟩ ⟨flag, p⟩, ?_, ?_, ?_, ?_⟩
  · unfold DecodeResponse
    rw [hda]
    rfl
  · intro hhigh
    have hnz : ¬ flag = 0 := by
      intro h0
      subst h0
      exact hhigh (by decide)
    unfold respStep
    rw [if_neg hnz, if_pos hhigh]
    refine ⟨rfl, ?_, ?_⟩
    · intro k
      exact respStep_trailers_lookup p k
    · show (match (parseTrailers p).2 with
        | some s => some s
        | none => (none : Option Status)) = (parseTrailers p).2
      cases (parseTrailers p).2 <;> rfl
  · intro h0
    subst h0
    rfl
  · intro hnz hlow
    unfold respStep
    rw [if_neg hnz, if_neg (by simp [hlow])]

/-- Applies the amended C6 theorem at a trailer-flagged frame (flag 0x81:
high bit plus a reserved bit) with a one-line trailer payload. -/
theorem c6_flag_classification_witness :
    ∃ resp, DecodeResponse (EncodeFrame 129 (strBytes "grpc-status: 7\r\n")) = .ok resp ∧
      ((129 : Nat) &&& 128 ≠ 0 →
        resp.messages = [] ∧
        (∀ k, mapGet resp.trailers k = specLookup (strBytes "grpc-status: 7\r\n") k) ∧
        resp.status = (parseTrailers (strBytes "grpc-status: 7\r\n")).2) ∧
      ((129 : Nat) = 0 → resp = ⟨[strBytes "grpc-status: 7\r\n"], [], none⟩) ∧
      ((129 : Nat) ≠ 0 → (129 : Nat) &&& 128 = 0 →
        resp = ⟨[], [], none⟩) :=
  c6_flag_classification 129 (strBytes "grpc-status: 7\r\n") (by decide)

/-! ## Claim C3 -/

theorem DecodeAll_stream (msgs : List (List Nat)) (t : List Nat)
    (hm : ∀ p ∈ msgs, p.length ≤ MaxMessageSize) (ht : t.length ≤ MaxMessageSize) :
    DecodeAll MaxMessageSize ((msgs.map (EncodeFrame 0)).flatten ++ EncodeFrame 128 t) =
      ((msgs.map fun p => Frame.mk 0 p) ++ [⟨128, t⟩], none) := by
  induction msgs with
  | nil =>
    show DecodeAll MaxMessageSize (EncodeFrame 128 t) = ([⟨128, t⟩], none)
    have h := DecodeAll_encodeFrame MaxMessageSize 128 t []
      (by unfold MaxMessageSize at ht; omega) ht
    rw [List.append_nil] at h
    rw [h]
    simp [DecodeAll_nil]
  | cons p ps ih =>
    have hp : p.length ≤ MaxMessageSize := hm p (by simp)
    simp only [List.map_cons, List.flatten_cons, List.append_assoc]
    rw [DecodeAll_encodeFrame MaxMessageSize 0 p _ (by unfold MaxMessageSize at hp; omega) hp]
    rw [ih (fun q hq => hm q (by simp [hq]))]
    rfl

theorem foldl_respStep_data (msgs : List (List Nat)) :
    ∀ r0 : DecodedResponse,
      (msgs.map fun p => Frame.mk 0 p).foldl respStep r0 =
        { r0 with messages := r0.messages ++ msgs } := by
  induction msgs with
  | nil => intro r0; simp
  | cons p ps ih =>
    intro r0
    simp only [List.map_cons, List.foldl_cons]
    have h1 : respStep r0 ⟨0, p⟩ = { r0 with messages := r0.messages ++ [p] } := by
      unfold respStep
      rw [if_pos rfl]
    rw [h1, ih]
    simp

theorem splitFirstNL_append (a b : List Nat) (ha : ∀ x ∈ a, x ≠ 10) :
    splitFirstNL (a ++ b) = (splitFirstNL b).map fun p => (a ++ p.1, p.2) := by
  induction a with
  | nil => cases hb : splitFirstNL b <;> simp [hb]
  | cons c rest ih =>
    have hc : c ≠ 10 := ha c (by simp)
    simp only [List.cons_append, splitFirstNL, List.append_eq]
    rw [if_neg hc, ih (fun x hx => ha x (by simp [hx]))]
    cases hb : splitFirstNL b <;> simp [hb]

theorem respStep_trailer_none (resp : DecodedResponse) (p : List Nat)
    (h : parseTrailers p = ([], none)) :
    respStep resp (Frame.mk 128 p) = resp := by
  unfold respStep
  rw [if_neg (show ¬(128 : Nat) = 0 by decide),
    if_pos (show (128 : Nat) &&& 128 ≠ 0 by decide)]
  show ({ resp with
      trailers := (parseTrailers p).1.foldl (fun acc kv => mapSet acc kv.1 kv.2) resp.trailers,
      status := match (parseTrailers p).2 with
        | some s => some s
        | none => resp.status } : DecodedResponse) = resp
  rw [h]
  rfl

theorem DecodeResponse_swallowed (msgs : List (List Nat)) (t : List Nat)
    (hm : ∀ p ∈ msgs, p.length ≤ MaxMessageSize) (ht : t.length ≤ MaxMessageSize)
    (h : parseTrailers t = ([], none)) :
    DecodeResponse ((msgs.map (EncodeFrame 0)).flatten ++ EncodeFrame 128 t) =
      .ok ⟨msgs, [], none⟩ := by
  unfold DecodeResponse
  rw [DecodeAll_stream msgs t hm ht]
  show Except.ok (List.foldl respStep (DecodedResponse.mk [] [] none)
    ((msgs.map fun p => Frame.mk 0 p) ++ [Frame.mk 128 t])) = _
  rw [List.foldl_append, foldl_respStep_data]
  rw [List.foldl_cons, respStep_trailer_none _ _ h]
  simp

theorem scanLinesGo_toolong (fuel : Nat) (d line rest : List Nat)
    (hs : splitFirstNL d = some (line, rest))
    (hl : maxScanTokenSize ≤ line.length) :
    scanLinesGo (fuel + 1) d = [] := by
  show (match splitFirstNL d with
    | some (line, rest) =>
      if line.length < maxScanTokenSize then stripCR line :: scanLinesGo fuel rest
      else []
    | none =>
      if d = [] then []
      else if d.length < maxScanTokenSize then [stripCR d]
      else []) = []
  rw [hs]
  exact if_neg (by omega)

/-- C3 fails as stated: `parseTrailers` scans with a default
`bufio.Scanner`, whose `MaxScanTokenSize` is 64 KiB, and never checks
`scanner.Err()`.  A trailer whose first line is 65536 newline-free bytes
makes `Scan` fail with `ErrTooLong`, silently dropping that line and every
later one — including the ordinary CRLF-terminated `grpc-status: 3` line
that follows it, which the claim says must be recorded (the first conjunct
shows that line is a well-formed key/value line by the recording rule
itself).  The stream of one Data frame and that Trailer frame decodes with
no recorded trailers and no status. -/
theorem c3_counterexample :
    lineKV (strBytes "grpc-status: 3") =
      some (strBytes "grpc-status", strBytes "3") ∧
    DecodeResponse (([[7]].map (EncodeFrame 0)).flatten ++ EncodeFrame 128 longTrailerPayload) =
      .ok ⟨[[7]], [], none⟩ := by
  constructor
  · decide
  · have hrep10 : ∀ x ∈ List.replicate 65536 (120 : Nat), x ≠ 10 := by
      intro x hx
      rw [List.eq_of_mem_replicate hx]
      decide
    have hsplit : splitFirstNL longTrailerPayload =
        some (List.replicate 65536 120, strBytes "grpc-status: 3\r\n") := by
      have h10 : splitFirstNL ([10] ++ strBytes "grpc-status: 3\r\n") =
          some ([], strBytes "grpc-status: 3\r\n") := by decide
      unfold longTrailerPayload
      rw [List.append_assoc, splitFirstNL_append _ _ hrep10, h10]
      simp only [Option.map_some']
      rw [List.append_nil]
    have hlen : longTrailerPayload.length = 65553 := by
      simp only [longTrailerPayload, List.length_append, List.length_replicate]
      decide
    have hscan : scanLines longTrailerPayload = [] := by
      unfold scanLines
      exact scanLinesGo_toolong _ _ _ _ hsplit
        (by rw [List.length_replicate]; decide)
    have hpt : parseTrailers longTrailerPayload = ([], none) := by
      unfold parseTrailers
      rw [hscan]
      rfl
    have hm : ∀ p ∈ [[(7 : Nat)]], p.length ≤ MaxMessageSize := by
      intro p hp
      fin_cases hp
      decide
    exact DecodeResponse_swallowed [[7]] longTrailerPayload hm
      (by rw [hlen]; decide) hpt

/-- C3 amended: a byte stream of N well-formed Data frames followed by one
Trailer frame decodes to exactly the N payloads, in order; every
`key: value` trailer line is recorded under its lower-cased (trimmed) key
with the last write winning on duplicates, blank lines and colon-free
lines skipped — except that a line of 64 KiB or more (the scanner's token
cap, whose error `parseTrailers` swallows) silently ends trailer parsing,
dropping it and all later lines.  `specLookup` restates that recording
rule, cap included, independently of the decoder.  The effective status is
derived from the `grpc-status` key (leading integer, 0 when absent or
unparsable) and the `grpc-message` key — `effCode`/`effMsg` read 0 and the
empty message off a response with no recorded status, which is the stated
"else status code 0" convention.  The trailer payload is restricted to
ASCII bytes, the domain on which the bytewise model of
`strings.ToLower`/`strings.TrimSpace` is exact. -/
theorem c3_decodeResponse_stream (msgs : List (List Nat)) (t : List Nat)
    (hm : ∀ p ∈ msgs, p.length ≤ MaxMessageSize)
    (ht : t.length ≤ MaxMessageSize)
    (hascii : ∀ b ∈ t, b < 128) :
    ∃ resp, DecodeResponse ((msgs.map (EncodeFrame 0)).flatten ++ EncodeFrame 128 t) = .ok resp ∧
      resp.messages = msgs ∧
      (∀ k, mapGet resp.trailers k = specLookup t k) ∧
      effCode resp = ((specLookup t (strBytes "grpc-status")).map parseDec).getD 0 ∧
      effMsg resp = (specLookup t (strBytes "grpc-message")).getD [] := by
  have hda := DecodeAll_stream msgs t hm ht
  have htr : respStep ⟨msgs, [], none⟩ ⟨128, t⟩ =
      ⟨msgs, (parseTrailers t).1.foldl (fun acc kv => mapSet acc kv.1 kv.2) [],
        (parseTrailers t).2⟩ := by
    unfold respStep
    rw [if_neg (show ¬(128 : Nat) = 0 by decide),
      if_pos (show (128 : Nat) &&& 128 ≠ 0 by decide)]
    show ({ messages := msgs,
            trailers := List.foldl (fun acc kv => mapSet acc kv.1 kv.2) [] (parseTrailers t).1,
            status := (match (parseTrailers t).2 with
              | some s => some s
              | none => none) } : DecodedResponse) = _
    cases (parseTrailers t).2 <;> rfl
  refine ⟨respStep ⟨msgs, [], none⟩ ⟨128, t⟩, ?_, ?_, ?_, ?_, ?_⟩
  · unfold DecodeResponse
    rw [hda]
    show Except.ok (((msgs.map fun p => Frame.mk 0 p) ++ [Frame.mk 128 t]).foldl respStep
      (DecodedResponse.mk [] [] none)) = _
    rw [List.foldl_append, foldl_respStep_data]
    show Except.ok (List.foldl respStep (DecodedResponse.mk msgs [] none) [Frame.mk 128 t]) = _
    rfl
  · rw [htr]
  · intro k
    rw [htr]
    exact respStep_trailers_lookup t k
  · rw [htr]
    show ((((parseTrailers t).2).map Status.code).getD 0 : Int) = _
    rw [parseTrailers_snd, deriveStatus_code, parseTrailers_fst_lookup]
  · rw [htr]
    show (((parseTrailers t).2).map Status.message).getD [] = _
    rw [parseTrailers_snd, deriveStatus_message, parseTrailers_fst_lookup]

/-- Applies the C3 theorem to two data payloads and the trailer
`"grpc-status: 3\r\ngrpc-message: bad\r\n"`. -/
theorem c3_decodeResponse_stream_witness :
    ∃ resp, DecodeResponse (([[1, 2], [3]].map (EncodeFrame 0)).flatten ++
        EncodeFrame 128 (strBytes "grpc-status: 3\r\ngrpc-message: bad\r\n")) = .ok resp ∧
      resp.messages = [[1, 2], [3]] ∧
      (∀ k, mapGet resp.trailers k =
        specLookup (strBytes "grpc-status: 3\r\ngrpc-message: bad\r\n") k) ∧
      effCode resp = ((specLookup (strBytes "grpc-status: 3\r\ngrpc-message: bad\r\n")
        (strBytes "grpc-status")).map parseDec).getD 0 ∧
      effMsg resp = (specLookup (strBytes "grpc-status: 3\r\ngrpc-message: bad\r\n")
        (strBytes "grpc-message")).getD [] :=
  c3_decodeResponse_stream [[1, 2], [3]] (strBytes "grpc-status: 3\r\ngrpc-message: bad\r\n")
    (by intro p hp; fin_cases hp <;> decide) (by decide) (by decide)

end GrpcWebCurl
